import Mathlib

/-!
lotus-claim: claim size per client.

A shallow embedding of `calculateClaimSizeByClient` (src/main.go, lines 68-101) and
the properties of its report.

Modelling choices
* `abi.ActorID` and `abi.PaddedPieceSize` are `uint64`: natural numbers, with the
  addition of line 77 reduced modulo `2^64`.  `abi.ChainEpoch` and the two epoch
  flags are `int64`: integers, only compared.
* `api.StateGetClaims` returns a Go map of claims or an error.  The `range` loop of
  line 75 visits the claims in some order; the list of claims is that sequence.
* The Go map `clientSizes` is an association list with one entry per key.  The
  order in which `range clientSizes` (line 87) yields the entries is chosen by the
  Go runtime: it is the parameter `iter`, constrained by `IterOrder`.
* `sort.Slice` is the insertion sort that the Go `sort` package (Go 1.19 and later)
  runs on slices of at most 12 elements (`insertionSortLessFunc`).  Where the rows are
  said to be determined, this is also proved of every sorted permutation of the map's
  entries, whatever the sorting algorithm.
* Standard output is the concatenation of the texts written by the `fmt.Printf`
  calls, in order.
-/

namespace LotusClaim

/-! Data model -/

/-- The modulus of `uint64` arithmetic. -/
def uint64Mod : Nat := 2 ^ 64

/-- The fields of `verifreg.Claim` read by the program. -/
structure Claim where
  /-- The client which allocated the claim, an `abi.ActorID`. -/
  Client : Nat
  /-- The epoch at which the claim term started, an `abi.ChainEpoch`. -/
  TermStart : Int
  /-- The size of the claimed piece, an `abi.PaddedPieceSize`. -/
  Size : Nat
deriving DecidableEq, Repr

/-- The local type `clientSize` of lines 82-85. -/
structure clientSize where
  client : Nat
  size : Nat
deriving DecidableEq, Repr

/-- A Go error value: a message, and the error it wraps if any. -/
inductive GoError where
  | plain (msg : String)
  | wrapping (msg : String) (cause : GoError)
deriving DecidableEq, Repr

/-- The method `Error()` of an error value. -/
def GoError.Error : GoError → String
  | .plain msg => msg
  | .wrapping msg _ => msg

/-- The function `errors.Unwrap`. -/
def GoError.Unwrap : GoError → Option GoError
  | .plain _ => none
  | .wrapping _ cause => some cause

/-- The call `fmt.Errorf(format ++ "%w", err)` for a format with no other verb. -/
def errorfW (format : String) (err : GoError) : GoError :=
  .wrapping (format ++ err.Error) err

/-! The aggregation map -/

/-- The map `clientSizes`: client id to accumulated size. -/
abbrev ClientSizes := List (Nat × Nat)

/-- Reading `m[k]`: the zero value when the key is absent. -/
def mapGet : ClientSizes → Nat → Nat
  | [], _ => 0
  | (k', v) :: rest, k => if k' = k then v else mapGet rest k

/-- Writing `m[k] = v`: the entry is replaced, or created when the key is absent. -/
def mapSet : ClientSizes → Nat → Nat → ClientSizes
  | [], k, v => [(k, v)]
  | (k', v') :: rest, k, v => if k' = k then (k, v) :: rest else (k', v') :: mapSet rest k v

/-- The condition of line 76. -/
def inRange (claim : Claim) (startEpoch endEpoch : Int) : Bool :=
  decide (claim.TermStart ≥ startEpoch) && decide (claim.TermStart ≤ endEpoch)

/-- One iteration of the loop of lines 75-79. -/
def accumulate (startEpoch endEpoch : Int) (m : ClientSizes) (claim : Claim) : ClientSizes :=
  if inRange claim startEpoch endEpoch then
    mapSet m claim.Client ((mapGet m claim.Client + claim.Size) % uint64Mod)
  else m

/-- The loop of lines 74-79 over the claims in the order they are visited. -/
def aggregate (claims : List Claim) (startEpoch endEpoch : Int) : ClientSizes :=
  claims.foldl (accumulate startEpoch endEpoch) []

/-! Sorting -/

/-- The inner loop of `insertionSortLessFunc`: the element `x` moves left past every
element it is `less` than.  The sorted part is held from right to left. -/
def insertLess {α : Type} (less : α → α → Bool) (x : α) : List α → List α
  | [] => [x]
  | y :: ys => if less x y then y :: insertLess less x ys else x :: y :: ys

/-- The call `sort.Slice(xs, less)` as insertion sort. -/
def sortSlice {α : Type} (less : α → α → Bool) (xs : List α) : List α :=
  (xs.foldl (fun sortedPart x => insertLess less x sortedPart) []).reverse

/-- The comparison of lines 90-92. -/
def lessBySize (a b : clientSize) : Bool := decide (a.size > b.size)

/-- An admissible behaviour of `range` over a Go map: every entry once, in any order. -/
def IterOrder (iter : ClientSizes → ClientSizes) : Prop :=
  ∀ m : ClientSizes, (iter m).Perm m

/-- The composite literal `clientSize{client, size}` of line 88. -/
def toRow (kv : Nat × Nat) : clientSize := clientSize.mk kv.1 kv.2

/-- The slice `sortedSizes` after line 92: the entries of the map in the order `iter`
yields them (lines 86-89), then sorted (lines 90-92). -/
def sortedSizes (claims : List Claim) (startEpoch endEpoch : Int)
    (iter : ClientSizes → ClientSizes) : List clientSize :=
  sortSlice lessBySize ((iter (aggregate claims startEpoch endEpoch)).map toRow)

/-! Printing -/

/-- The text written by the `Printf` of lines 94-95; `providerAddr` is the `%s`
rendering of the address. -/
def headerLine (providerAddr : String) (startEpoch endEpoch : Int) : String :=
  "Provider " ++ providerAddr ++ " 在Epoch " ++ toString startEpoch ++ " 到 " ++
    toString endEpoch ++ " 之间的Claim Size统计 (按Client分组):\n"

/-- The text written by the `Printf` of line 97. -/
def rowLine (cs : clientSize) : String :=
  "Client " ++ toString cs.client ++ ": " ++ toString cs.size ++ "\n"

/-- What one call leaves behind: the text on standard output and the returned error. -/
structure Outcome where
  stdout : String
  err : Option GoError
deriving DecidableEq, Repr

/-- The function `calculateClaimSizeByClient`; `fetched` is the result of
`api.StateGetClaims`. -/
def calculateClaimSizeByClient (fetched : Except GoError (List Claim))
    (iter : ClientSizes → ClientSizes) (providerAddr : String)
    (startEpoch endEpoch : Int) : Outcome :=
  match fetched with
  | .error err => { stdout := "", err := some (errorfW "调用StateGetClaims失败: " err) }
  | .ok claims =>
    { stdout := String.join
        (headerLine providerAddr startEpoch endEpoch ::
          (sortedSizes claims startEpoch endEpoch iter).map rowLine),
      err := none }

/-! Specification-side definitions -/

/-- The exact sum of the sizes of the claims of `client` whose term start lies in
the closed range. -/
def clientInRangeSum (claims : List Claim) (startEpoch endEpoch : Int) (client : Nat) : Nat :=
  ((claims.filter (fun c =>
      decide (c.Client = client ∧ startEpoch ≤ c.TermStart ∧ c.TermStart ≤ endEpoch))).map
    Claim.Size).sum

/-- The exact sum of the sizes of all claims whose term start lies in the closed range. -/
def inRangeSum (claims : List Claim) (startEpoch endEpoch : Int) : Nat :=
  ((claims.filter (fun c =>
      decide (startEpoch ≤ c.TermStart ∧ c.TermStart ≤ endEpoch))).map Claim.Size).sum

/-- The precondition of exact totals: the in-range sizes of every client sum to less
than `2^64`. -/
def NoOverflow (claims : List Claim) (startEpoch endEpoch : Int) : Prop :=
  ∀ client, clientInRangeSum claims startEpoch endEpoch client < 2 ^ 64

/-- The client ids that have a claim in range, each once. -/
def inRangeClients (claims : List Claim) (startEpoch endEpoch : Int) : List Nat :=
  ((claims.filter (fun c =>
      decide (startEpoch ≤ c.TermStart ∧ c.TermStart ≤ endEpoch))).map Claim.Client).dedup

/-- The line feed character. -/
def newline : Char := Char.ofNat 10

/-- The number of line feeds in a text, that is, of lines each ended by a line feed. -/
def newlines (text : String) : Nat := text.data.count newline

/-- The example claim list of the specification. -/
def exampleClaims : List Claim :=
  [⟨1, 100, 10⟩, ⟨1, 200, 5⟩, ⟨2, 150, 7⟩]

/-- Two claims of one client whose sizes sum to `2^64`. -/
def overflowClaims : List Claim :=
  [⟨1, 0, 2 ^ 63⟩, ⟨1, 0, 2 ^ 63⟩]

/-- Two clients with the same total. -/
def tiedClaims : List Claim :=
  [⟨1, 100, 5⟩, ⟨2, 100, 5⟩]

/-! The aggregation map: lemmas -/

theorem mapGet_mapSet (m : ClientSizes) (k v k' : Nat) :
    mapGet (mapSet m k v) k' = if k = k' then v else mapGet m k' := by
  induction m with
  | nil => simp [mapSet, mapGet]
  | cons p rest ih =>
    obtain ⟨a, b⟩ := p
    by_cases hak : a = k
    · subst hak
      by_cases hk : a = k' <;> simp [mapSet, mapGet, hk]
    · by_cases hk : k = k'
      · subst hk
        simp [mapSet, mapGet, hak, ih]
      · by_cases hak' : a = k'
        · subst hak'
          simp [mapSet, mapGet, hak, hk]
        · simp [mapSet, mapGet, hak, hk, hak', ih]

theorem keys_mapSet (m : ClientSizes) (k v : Nat) :
    (mapSet m k v).map Prod.fst =
      if k ∈ m.map Prod.fst then m.map Prod.fst else m.map Prod.fst ++ [k] := by
  induction m with
  | nil => simp [mapSet]
  | cons p rest ih =>
    obtain ⟨a, b⟩ := p
    by_cases hak : a = k
    · subst hak
      simp [mapSet]
    · have hka : ¬ k = a := fun h => hak h.symm
      by_cases hmem : k ∈ rest.map Prod.fst
      · rw [if_pos hmem] at ih
        have hmem2 : k ∈ ((a, b) :: rest).map Prod.fst := by
          rw [List.map_cons]; exact List.mem_cons_of_mem _ hmem
        rw [if_pos hmem2]
        simp [mapSet, hak, ih]
      · rw [if_neg hmem] at ih
        have hmem2 : ¬ k ∈ ((a, b) :: rest).map Prod.fst := by
          rw [List.map_cons, List.mem_cons]
          rintro (h | h)
          · exact hka h
          · exact hmem h
        rw [if_neg hmem2]
        simp [mapSet, hak, ih]

theorem mem_keys_mapSet (m : ClientSizes) (k v k' : Nat) :
    k' ∈ (mapSet m k v).map Prod.fst ↔ k' ∈ m.map Prod.fst ∨ k' = k := by
  rw [keys_mapSet]
  by_cases hmem : k ∈ m.map Prod.fst
  · rw [if_pos hmem]
    constructor
    · exact Or.inl
    · rintro (h | h)
      · exact h
      · rw [h]; exact hmem
  · rw [if_neg hmem, List.mem_append, List.mem_singleton]

theorem nodup_keys_mapSet (m : ClientSizes) (k v : Nat) (h : (m.map Prod.fst).Nodup) :
    ((mapSet m k v).map Prod.fst).Nodup := by
  rw [keys_mapSet]
  by_cases hmem : k ∈ m.map Prod.fst
  · rw [if_pos hmem]; exact h
  · rw [if_neg hmem]
    exact List.Nodup.append h (List.nodup_singleton k) (by simpa using hmem)

theorem sum_values_mapSet (m : ClientSizes) (k v : Nat) :
    ((mapSet m k v).map Prod.snd).sum + mapGet m k = (m.map Prod.snd).sum + v := by
  induction m with
  | nil => simp [mapSet, mapGet]
  | cons p rest ih =>
    obtain ⟨a, b⟩ := p
    by_cases hak : a = k
    · subst hak
      simp [mapSet, mapGet]
      omega
    · simp [mapSet, mapGet, hak]
      omega

theorem mapGet_of_mem (m : ClientSizes) (h : (m.map Prod.fst).Nodup) (k v : Nat)
    (hmem : (k, v) ∈ m) : mapGet m k = v := by
  induction m with
  | nil => simp at hmem
  | cons p rest ih =>
    obtain ⟨a, b⟩ := p
    rw [List.map_cons, List.nodup_cons] at h
    rw [List.mem_cons] at hmem
    rcases hmem with heq | hrest
    · injection heq with h1 h2
      subst h1; subst h2
      simp [mapGet]
    · have hne : ¬ a = k := by
        intro hak
        subst hak
        exact h.1 (List.mem_map.2 ⟨(a, v), hrest, rfl⟩)
      simp [mapGet, hne, ih h.2 hrest]

/-! The aggregation loop: lemmas -/

theorem inRange_iff (c : Claim) (s e : Int) :
    inRange c s e = true ↔ s ≤ c.TermStart ∧ c.TermStart ≤ e := by
  simp [inRange]

theorem aggregate_snoc (cs : List Claim) (c : Claim) (s e : Int) :
    aggregate (cs ++ [c]) s e = accumulate s e (aggregate cs s e) c := by
  simp [aggregate, List.foldl_append]

theorem clientInRangeSum_snoc (cs : List Claim) (c : Claim) (s e : Int) (k : Nat) :
    clientInRangeSum (cs ++ [c]) s e k =
      clientInRangeSum cs s e k +
        (if c.Client = k ∧ s ≤ c.TermStart ∧ c.TermStart ≤ e then c.Size else 0) := by
  unfold clientInRangeSum
  rw [List.filter_append, List.map_append, List.sum_append]
  by_cases h : c.Client = k ∧ s ≤ c.TermStart ∧ c.TermStart ≤ e
  · simp [List.filter_cons, h]
  · simp [List.filter_cons, h]

theorem inRangeSum_snoc (cs : List Claim) (c : Claim) (s e : Int) :
    inRangeSum (cs ++ [c]) s e =
      inRangeSum cs s e + (if s ≤ c.TermStart ∧ c.TermStart ≤ e then c.Size else 0) := by
  unfold inRangeSum
  rw [List.filter_append, List.map_append, List.sum_append]
  by_cases h : s ≤ c.TermStart ∧ c.TermStart ≤ e
  · simp [List.filter_cons, h]
  · simp [List.filter_cons, h]

theorem mapGet_aggregate (claims : List Claim) (s e : Int) (k : Nat) :
    mapGet (aggregate claims s e) k = clientInRangeSum claims s e k % uint64Mod := by
  induction claims using List.reverseRecOn with
  | nil => simp [aggregate, mapGet, clientInRangeSum]
  | append_singleton cs c ih =>
    rw [aggregate_snoc, clientInRangeSum_snoc]
    unfold accumulate
    by_cases hr : inRange c s e = true
    · rw [if_pos hr, mapGet_mapSet]
      have hr2 := (inRange_iff c s e).1 hr
      by_cases hk : c.Client = k
      · subst hk
        rw [if_pos rfl, if_pos ⟨rfl, hr2⟩, ih, Nat.mod_add_mod]
      · rw [if_neg hk, if_neg (fun h => hk h.1), ih, Nat.add_zero]
    · rw [if_neg hr]
      have hr2 : ¬ (s ≤ c.TermStart ∧ c.TermStart ≤ e) := fun h => hr ((inRange_iff c s e).2 h)
      rw [if_neg (fun h => hr2 h.2), ih, Nat.add_zero]

theorem nodup_keys_aggregate (claims : List Claim) (s e : Int) :
    ((aggregate claims s e).map Prod.fst).Nodup := by
  induction claims using List.reverseRecOn with
  | nil => simp [aggregate]
  | append_singleton cs c ih =>
    rw [aggregate_snoc]
    unfold accumulate
    by_cases hr : inRange c s e = true
    · rw [if_pos hr]; exact nodup_keys_mapSet _ _ _ ih
    · rw [if_neg hr]; exact ih

theorem mem_keys_aggregate (claims : List Claim) (s e : Int) (k : Nat) :
    k ∈ (aggregate claims s e).map Prod.fst ↔
      ∃ c ∈ claims, c.Client = k ∧ s ≤ c.TermStart ∧ c.TermStart ≤ e := by
  induction claims using List.reverseRecOn with
  | nil => simp [aggregate]
  | append_singleton cs c ih =>
    rw [aggregate_snoc]
    unfold accumulate
    by_cases hr : inRange c s e = true
    · rw [if_pos hr, mem_keys_mapSet, ih]
      have hr2 := (inRange_iff c s e).1 hr
      constructor
      · rintro (⟨c', hc', h⟩ | h)
        · exact ⟨c', List.mem_append_left _ hc', h⟩
        · exact ⟨c, by simp, h.symm, hr2⟩
      · rintro ⟨c', hc', h⟩
        rw [List.mem_append, List.mem_singleton] at hc'
        rcases hc' with hc' | hc'
        · exact Or.inl ⟨c', hc', h⟩
        · subst hc'; exact Or.inr h.1.symm
    · rw [if_neg hr, ih]
      have hr2 : ¬ (s ≤ c.TermStart ∧ c.TermStart ≤ e) := fun h => hr ((inRange_iff c s e).2 h)
      constructor
      · rintro ⟨c', hc', h⟩
        exact ⟨c', List.mem_append_left _ hc', h⟩
      · rintro ⟨c', hc', h⟩
        rw [List.mem_append, List.mem_singleton] at hc'
        rcases hc' with hc' | hc'
        · exact ⟨c', hc', h⟩
        · subst hc'; exact absurd h.2 hr2

theorem clientInRangeSum_le_snoc (cs : List Claim) (c : Claim) (s e : Int) (k : Nat) :
    clientInRangeSum cs s e k ≤ clientInRangeSum (cs ++ [c]) s e k := by
  rw [clientInRangeSum_snoc]; exact Nat.le_add_right _ _

theorem sum_values_aggregate (claims : List Claim) (s e : Int)
    (hsum : ∀ client, clientInRangeSum claims s e client < uint64Mod) :
    ((aggregate claims s e).map Prod.snd).sum = inRangeSum claims s e := by
  induction claims using List.reverseRecOn with
  | nil => simp [aggregate, inRangeSum]
  | append_singleton cs c ih =>
    have ih2 := ih (fun k => lt_of_le_of_lt (clientInRangeSum_le_snoc cs c s e k) (hsum k))
    rw [aggregate_snoc, inRangeSum_snoc]
    unfold accumulate
    by_cases hr : inRange c s e = true
    · have hr2 := (inRange_iff c s e).1 hr
      rw [if_pos hr, if_pos hr2]
      have hg := mapGet_aggregate cs s e c.Client
      have hk := hsum c.Client
      rw [clientInRangeSum_snoc, if_pos ⟨rfl, hr2⟩] at hk
      have hlt : clientInRangeSum cs s e c.Client < uint64Mod := by omega
      rw [Nat.mod_eq_of_lt hlt] at hg
      rw [hg, Nat.mod_eq_of_lt hk]
      have h := sum_values_mapSet (aggregate cs s e) c.Client
        (clientInRangeSum cs s e c.Client + c.Size)
      omega
    · rw [if_neg hr, if_neg (fun h => hr ((inRange_iff c s e).2 h)), Nat.add_zero]
      exact ih2

/-! Sorting: lemmas -/

theorem insertLess_perm {α : Type} (less : α → α → Bool) (x : α) (l : List α) :
    (insertLess less x l).Perm (x :: l) := by
  induction l with
  | nil => simp [insertLess]
  | cons y ys ih =>
    unfold insertLess
    by_cases h : less x y = true
    · rw [if_pos h]
      exact (List.Perm.cons y ih).trans (List.Perm.swap x y ys)
    · rw [if_neg h]

theorem foldl_insertLess_perm {α : Type} (less : α → α → Bool) (xs acc : List α) :
    (xs.foldl (fun sortedPart x => insertLess less x sortedPart) acc).Perm (xs ++ acc) := by
  induction xs generalizing acc with
  | nil => simp
  | cons x rest ih =>
    rw [List.foldl_cons]
    refine (ih (insertLess less x acc)).trans ?_
    refine (List.Perm.append_left rest (insertLess_perm less x acc)).trans ?_
    rw [List.cons_append]
    exact List.perm_middle

theorem sortSlice_perm {α : Type} (less : α → α → Bool) (xs : List α) :
    (sortSlice less xs).Perm xs := by
  unfold sortSlice
  refine (List.reverse_perm _).trans ?_
  simpa using foldl_insertLess_perm less xs []

theorem insertLess_ascending (x : clientSize) (l : List clientSize)
    (h : l.Pairwise (fun a b => a.size ≤ b.size)) :
    (insertLess lessBySize x l).Pairwise (fun a b => a.size ≤ b.size) := by
  induction l with
  | nil => simp [insertLess]
  | cons y ys ih =>
    rw [List.pairwise_cons] at h
    unfold insertLess
    by_cases hl : lessBySize x y = true
    · rw [if_pos hl, List.pairwise_cons]
      have hxy : y.size < x.size := by simpa [lessBySize] using hl
      refine ⟨?_, ih h.2⟩
      intro z hz
      have hz2 := (insertLess_perm lessBySize x ys).mem_iff.1 hz
      rw [List.mem_cons] at hz2
      rcases hz2 with hz2 | hz2
      · rw [hz2]; exact Nat.le_of_lt hxy
      · exact h.1 z hz2
    · rw [if_neg hl, List.pairwise_cons, List.pairwise_cons]
      have hxy : x.size ≤ y.size := by simpa [lessBySize] using hl
      refine ⟨?_, h.1, h.2⟩
      intro z hz
      rw [List.mem_cons] at hz
      rcases hz with hz | hz
      · rw [hz]; exact hxy
      · exact Nat.le_trans hxy (h.1 z hz)

theorem foldl_insertLess_ascending (xs acc : List clientSize)
    (h : acc.Pairwise (fun a b => a.size ≤ b.size)) :
    (xs.foldl (fun sortedPart x => insertLess lessBySize x sortedPart) acc).Pairwise
      (fun a b => a.size ≤ b.size) := by
  induction xs generalizing acc with
  | nil => simpa using h
  | cons x rest ih =>
    rw [List.foldl_cons]
    exact ih _ (insertLess_ascending x acc h)

theorem sortSlice_descending (xs : List clientSize) :
    (sortSlice lessBySize xs).Pairwise (fun a b => a.size ≥ b.size) := by
  unfold sortSlice
  rw [List.pairwise_reverse]
  exact foldl_insertLess_ascending xs [] List.Pairwise.nil

/-- Two lists with the same elements, both in non-increasing order of size, agree as
soon as the sizes are pairwise distinct. -/
theorem descending_unique (l₁ l₂ : List clientSize) (hp : l₁.Perm l₂)
    (h₁ : l₁.Pairwise (fun a b => a.size ≥ b.size))
    (h₂ : l₂.Pairwise (fun a b => a.size ≥ b.size))
    (hnd : (l₁.map clientSize.size).Nodup) : l₁ = l₂ := by
  have hnd₂ : (l₂.map clientSize.size).Nodup := (hp.map clientSize.size).nodup_iff.1 hnd
  have strict : ∀ l : List clientSize, l.Pairwise (fun a b => a.size ≥ b.size) →
      (l.map clientSize.size).Nodup → l.Pairwise (fun a b => a.size > b.size) := by
    intro l hl hn
    have hn2 : l.Pairwise (fun a b => a.size ≠ b.size) := List.pairwise_map.1 hn
    exact (hl.and hn2).imp (fun hab => by omega)
  haveI : IsAntisymm clientSize (fun a b => a.size > b.size) :=
    ⟨fun a b hab hba => absurd hab (by omega)⟩
  exact List.eq_of_perm_of_sorted hp (strict l₁ h₁ hnd) (strict l₂ h₂ hnd₂)

/-- Two lists with the same elements, both in non-increasing order of size, show the
same sequence of sizes. -/
theorem descending_sizes_unique (l₁ l₂ : List clientSize) (hp : l₁.Perm l₂)
    (h₁ : l₁.Pairwise (fun a b => a.size ≥ b.size))
    (h₂ : l₂.Pairwise (fun a b => a.size ≥ b.size)) :
    l₁.map clientSize.size = l₂.map clientSize.size := by
  have s₁ : (l₁.map clientSize.size).Pairwise (fun a b => a ≥ b) := List.pairwise_map.2 h₁
  have s₂ : (l₂.map clientSize.size).Pairwise (fun a b => a ≥ b) := List.pairwise_map.2 h₂
  exact List.eq_of_perm_of_sorted (hp.map clientSize.size) s₁ s₂

/-! The sorted rows: lemmas -/

theorem sortedSizes_perm (claims : List Claim) (s e : Int) (iter : ClientSizes → ClientSizes)
    (hiter : IterOrder iter) :
    (sortedSizes claims s e iter).Perm ((aggregate claims s e).map toRow) := by
  unfold sortedSizes
  exact (sortSlice_perm _ _).trans ((hiter _).map _)

theorem sortedSizes_descending (claims : List Claim) (s e : Int)
    (iter : ClientSizes → ClientSizes) :
    (sortedSizes claims s e iter).Pairwise (fun a b => a.size ≥ b.size) :=
  sortSlice_descending _

theorem mem_sortedSizes (claims : List Claim) (s e : Int) (iter : ClientSizes → ClientSizes)
    (hiter : IterOrder iter) (row : clientSize) :
    row ∈ sortedSizes claims s e iter ↔ (row.client, row.size) ∈ aggregate claims s e := by
  rw [(sortedSizes_perm claims s e iter hiter).mem_iff, List.mem_map]
  constructor
  · rintro ⟨kv, hkv, rfl⟩
    exact hkv
  · intro h
    exact ⟨(row.client, row.size), h, rfl⟩

theorem clients_sortedSizes (claims : List Claim) (s e : Int) (iter : ClientSizes → ClientSizes)
    (hiter : IterOrder iter) :
    ((sortedSizes claims s e iter).map clientSize.client).Perm
      ((aggregate claims s e).map Prod.fst) := by
  have h := (sortedSizes_perm claims s e iter hiter).map clientSize.client
  rw [List.map_map] at h
  exact h

theorem sizes_sortedSizes (claims : List Claim) (s e : Int) (iter : ClientSizes → ClientSizes)
    (hiter : IterOrder iter) :
    ((sortedSizes claims s e iter).map clientSize.size).Perm
      ((aggregate claims s e).map Prod.snd) := by
  have h := (sortedSizes_perm claims s e iter hiter).map clientSize.size
  rw [List.map_map] at h
  exact h

theorem size_of_mem_sortedSizes (claims : List Claim) (s e : Int)
    (iter : ClientSizes → ClientSizes) (hiter : IterOrder iter) (row : clientSize)
    (hrow : row ∈ sortedSizes claims s e iter) :
    row.size = clientInRangeSum claims s e row.client % uint64Mod := by
  rw [← mapGet_aggregate]
  exact (mapGet_of_mem _ (nodup_keys_aggregate claims s e) _ _
    ((mem_sortedSizes claims s e iter hiter row).1 hrow)).symm

theorem iterOrder_id : IterOrder id := fun m => List.Perm.refl m

theorem iterOrder_reverse : IterOrder List.reverse := fun m => List.reverse_perm m

theorem clientInRangeSum_le (claims : List Claim) (s e : Int) (k : Nat) :
    clientInRangeSum claims s e k ≤ inRangeSum claims s e := by
  induction claims using List.reverseRecOn with
  | nil => simp [clientInRangeSum, inRangeSum]
  | append_singleton cs c ih =>
    rw [clientInRangeSum_snoc, inRangeSum_snoc]
    by_cases hr : s ≤ c.TermStart ∧ c.TermStart ≤ e
    · rw [if_pos hr]
      by_cases hk : c.Client = k
      · rw [if_pos ⟨hk, hr⟩]; omega
      · rw [if_neg (fun h => hk h.1)]; omega
    · rw [if_neg hr, if_neg (fun h => hr h.2)]; omega

theorem aggregate_skip (before after : List Claim) (c : Claim) (s e : Int)
    (hout : ¬ (s ≤ c.TermStart ∧ c.TermStart ≤ e)) :
    aggregate (before ++ c :: after) s e = aggregate (before ++ after) s e := by
  have hr : ¬ inRange c s e = true := fun h => hout ((inRange_iff c s e).1 h)
  unfold aggregate
  rw [List.foldl_append, List.foldl_append, List.foldl_cons]
  congr 1
  unfold accumulate
  rw [if_neg hr]

theorem entries_eq_keys_map (m : ClientSizes) (h : (m.map Prod.fst).Nodup) :
    m = (m.map Prod.fst).map (fun k => (k, mapGet m k)) := by
  induction m with
  | nil => rfl
  | cons p rest ih =>
    obtain ⟨a, b⟩ := p
    rw [List.map_cons, List.nodup_cons] at h
    rw [List.map_cons, List.map_cons]
    have hhead : mapGet ((a, b) :: rest) a = b := by simp [mapGet]
    have htail : (rest.map Prod.fst).map (fun k => (k, mapGet ((a, b) :: rest) k)) =
        (rest.map Prod.fst).map (fun k => (k, mapGet rest k)) := by
      apply List.map_congr_left
      intro k hk
      have hne : ¬ a = k := fun hak => h.1 (hak ▸ hk)
      simp [mapGet, hne]
    rw [htail, ← ih h.2]
    simp only [hhead]

theorem clientInRangeSum_perm (claims claims' : List Claim) (hp : claims'.Perm claims)
    (s e : Int) (k : Nat) : clientInRangeSum claims' s e k = clientInRangeSum claims s e k := by
  unfold clientInRangeSum
  exact ((hp.filter _).map _).sum_eq

theorem aggregate_perm (claims claims' : List Claim) (hp : claims'.Perm claims) (s e : Int) :
    (aggregate claims' s e).Perm (aggregate claims s e) := by
  have hkeys : ((aggregate claims' s e).map Prod.fst).Perm ((aggregate claims s e).map Prod.fst) := by
    rw [List.perm_ext_iff_of_nodup (nodup_keys_aggregate claims' s e)
      (nodup_keys_aggregate claims s e)]
    intro k
    rw [mem_keys_aggregate, mem_keys_aggregate]
    constructor
    · rintro ⟨c, hc, h⟩
      exact ⟨c, hp.mem_iff.1 hc, h⟩
    · rintro ⟨c, hc, h⟩
      exact ⟨c, hp.mem_iff.2 hc, h⟩
  rw [entries_eq_keys_map _ (nodup_keys_aggregate claims' s e),
    entries_eq_keys_map (aggregate claims s e) (nodup_keys_aggregate claims s e)]
  have hfun : (fun k => (k, mapGet (aggregate claims' s e) k)) =
      (fun k => (k, mapGet (aggregate claims s e) k)) := by
    funext k
    rw [mapGet_aggregate, mapGet_aggregate, clientInRangeSum_perm claims claims' hp]
  rw [hfun]
  exact hkeys.map _

theorem sortedSizes_unique (claims : List Claim) (s e : Int) (iter : ClientSizes → ClientSizes)
    (hiter : IterOrder iter) (hdistinct : ((aggregate claims s e).map Prod.snd).Nodup)
    (rows : List clientSize) (hp : rows.Perm ((aggregate claims s e).map toRow))
    (hs : rows.Pairwise (fun a b => a.size ≥ b.size)) :
    rows = sortedSizes claims s e iter := by
  have hnd : (rows.map clientSize.size).Nodup := by
    have h := hp.map clientSize.size
    rw [List.map_map] at h
    exact h.nodup_iff.2 hdistinct
  exact descending_unique rows _ (hp.trans (sortedSizes_perm claims s e iter hiter).symm) hs
    (sortedSizes_descending claims s e iter) hnd

theorem aggregate_eq_nil (claims : List Claim) (s e : Int)
    (h : e < s ∨ claims = []) : aggregate claims s e = [] := by
  have hk : (aggregate claims s e).map Prod.fst = [] := by
    rw [List.eq_nil_iff_forall_not_mem]
    intro k hk
    rw [mem_keys_aggregate] at hk
    obtain ⟨c, hc, -, h1, h2⟩ := hk
    rcases h with h | h
    · omega
    · rw [h] at hc
      simp at hc
  exact List.map_eq_nil_iff.1 hk

theorem join_cons (h : String) (t : List String) : String.join (h :: t) = h ++ String.join t := by
  apply String.ext
  simp [String.data_join, String.data_append]

theorem length_sortedSizes (claims : List Claim) (s e : Int) (iter : ClientSizes → ClientSizes)
    (hiter : IterOrder iter) :
    (sortedSizes claims s e iter).length = (inRangeClients claims s e).length := by
  have h1 := (clients_sortedSizes claims s e iter hiter).length_eq
  rw [List.length_map] at h1
  rw [h1]
  apply List.Perm.length_eq
  unfold inRangeClients
  rw [List.perm_ext_iff_of_nodup (nodup_keys_aggregate claims s e) (List.nodup_dedup _)]
  intro k
  rw [mem_keys_aggregate, List.mem_dedup, List.mem_map]
  constructor
  · rintro ⟨c, hc, hk, hr⟩
    exact ⟨c, List.mem_filter.2 ⟨hc, by simpa using hr⟩, hk⟩
  · rintro ⟨c, hc, hk⟩
    rw [List.mem_filter] at hc
    exact ⟨c, hc.1, hk, by simpa using hc.2⟩

/-! Counting lines -/

theorem digitChar_ne_newline (n : Nat) : Nat.digitChar (n % 10) ≠ newline := by
  have h : ∀ d, d < 10 → Nat.digitChar d ≠ newline := by decide
  exact h _ (Nat.mod_lt _ (by decide))

theorem count_newline_toDigitsCore (fuel n : Nat) (acc : List Char) :
    (Nat.toDigitsCore 10 fuel n acc).count newline = acc.count newline := by
  induction fuel generalizing n acc with
  | zero => rfl
  | succ f ih =>
    unfold Nat.toDigitsCore
    have hd : (Nat.digitChar (n % 10) :: acc).count newline = acc.count newline := by
      rw [List.count_cons_of_ne (digitChar_ne_newline n).symm]
    simp only []
    split_ifs
    · exact hd
    · rw [ih, hd]

theorem newlines_append (a b : String) : newlines (a ++ b) = newlines a + newlines b := by
  unfold newlines
  rw [String.data_append, List.count_append]

theorem newlines_nat (n : Nat) : newlines (toString n) = 0 := by
  show (Nat.toDigits 10 n).count newline = 0
  unfold Nat.toDigits
  rw [count_newline_toDigitsCore]
  rfl

theorem newlines_int (n : Int) : newlines (toString n) = 0 := by
  cases n with
  | ofNat m => exact newlines_nat m
  | negSucc m =>
    show newlines ("-" ++ toString (Nat.succ m)) = 0
    rw [newlines_append, newlines_nat]
    decide

theorem newlines_headerLine (addr : String) (s e : Int) (haddr : newlines addr = 0) :
    newlines (headerLine addr s e) = 1 := by
  unfold headerLine
  simp only [newlines_append, newlines_int, haddr]
  decide

theorem newlines_rowLine (row : clientSize) : newlines (rowLine row) = 1 := by
  unfold rowLine
  simp only [newlines_append, newlines_nat]
  decide

theorem newlines_join_rows (rows : List clientSize) :
    newlines (String.join (rows.map rowLine)) = rows.length := by
  induction rows with
  | nil => decide
  | cons row rest ih =>
    rw [List.map_cons, join_cons, newlines_append, ih, newlines_rowLine, List.length_cons]
    omega

theorem stdout_ok (claims : List Claim) (iter : ClientSizes → ClientSizes) (addr : String)
    (s e : Int) :
    (calculateClaimSizeByClient (.ok claims) iter addr s e).stdout =
      headerLine addr s e ++ String.join ((sortedSizes claims s e iter).map rowLine) := by
  show String.join _ = _
  rw [join_cons]

/-! The claims -/

/-- C1: when the in-range sizes of every client sum to less than `2^64`, every row
`(client, total)` of `calculateClaimSizeByClient` has `total` equal to the sum of `Size`
over the claims of that client with `startEpoch ≤ TermStart ≤ endEpoch`, and a claim
whose `TermStart` is outside the range adds nothing: without it the rows are the same. -/
theorem totals_eq_in_range_sums (claims : List Claim) (startEpoch endEpoch : Int)
    (iter : ClientSizes → ClientSizes) (hiter : IterOrder iter)
    (hsum : NoOverflow claims startEpoch endEpoch) :
    (∀ row ∈ sortedSizes claims startEpoch endEpoch iter,
      row.size = clientInRangeSum claims startEpoch endEpoch row.client) ∧
    (∀ (before after : List Claim) (c : Claim), claims = before ++ c :: after →
      ¬ (startEpoch ≤ c.TermStart ∧ c.TermStart ≤ endEpoch) →
      sortedSizes (before ++ after) startEpoch endEpoch iter =
        sortedSizes claims startEpoch endEpoch iter) := by
  constructor
  · intro row hrow
    rw [size_of_mem_sortedSizes claims startEpoch endEpoch iter hiter row hrow]
    exact Nat.mod_eq_of_lt (hsum row.client)
  · intro before after c hclaims hout
    subst hclaims
    unfold sortedSizes
    rw [aggregate_skip before after c startEpoch endEpoch hout]

theorem totals_eq_in_range_sums_witness :
    IterOrder List.reverse ∧ NoOverflow exampleClaims 100 150 ∧
    (⟨1, 10⟩ : clientSize) ∈ sortedSizes exampleClaims 100 150 List.reverse ∧
    (10 : Nat) = clientInRangeSum exampleClaims 100 150 1 ∧
    sortedSizes ([⟨1, 100, 10⟩] ++ [⟨2, 150, 7⟩]) 100 150 List.reverse =
      sortedSizes exampleClaims 100 150 List.reverse :=
  have hsum : NoOverflow exampleClaims 100 150 := fun client =>
    lt_of_le_of_lt (clientInRangeSum_le exampleClaims 100 150 client) (by decide)
  have main := totals_eq_in_range_sums exampleClaims 100 150 List.reverse iterOrder_reverse hsum
  ⟨iterOrder_reverse, hsum, by decide, main.1 ⟨1, 10⟩ (by decide),
    main.2 [⟨1, 100, 10⟩] [⟨2, 150, 7⟩] ⟨1, 200, 5⟩ rfl (by decide)⟩

/-- C2: the rows of `calculateClaimSizeByClient` hold each client id at most once, and
a client id is in some row exactly when some claim of that client has
`startEpoch ≤ TermStart ≤ endEpoch`, whatever the sizes. -/
theorem one_row_per_in_range_client (claims : List Claim) (startEpoch endEpoch : Int)
    (iter : ClientSizes → ClientSizes) (hiter : IterOrder iter) :
    ((sortedSizes claims startEpoch endEpoch iter).map clientSize.client).Nodup ∧
    (∀ client, client ∈ (sortedSizes claims startEpoch endEpoch iter).map clientSize.client ↔
      ∃ c ∈ claims, c.Client = client ∧ startEpoch ≤ c.TermStart ∧ c.TermStart ≤ endEpoch) := by
  have hp := clients_sortedSizes claims startEpoch endEpoch iter hiter
  constructor
  · exact hp.nodup_iff.2 (nodup_keys_aggregate claims startEpoch endEpoch)
  · intro client
    rw [hp.mem_iff]
    exact mem_keys_aggregate claims startEpoch endEpoch client

theorem one_row_per_in_range_client_witness :
    IterOrder List.reverse ∧
    (sortedSizes [⟨7, 5, 0⟩, ⟨7, 6, 0⟩, ⟨8, 9, 1⟩] 5 6 List.reverse).map clientSize.client = [7] ∧
    ((sortedSizes [⟨7, 5, 0⟩, ⟨7, 6, 0⟩, ⟨8, 9, 1⟩] 5 6 List.reverse).map clientSize.client).Nodup ∧
    (7 ∈ (sortedSizes [⟨7, 5, 0⟩, ⟨7, 6, 0⟩, ⟨8, 9, 1⟩] 5 6 List.reverse).map clientSize.client ↔
      ∃ c ∈ ([⟨7, 5, 0⟩, ⟨7, 6, 0⟩, ⟨8, 9, 1⟩] : List Claim),
        c.Client = 7 ∧ (5 : Int) ≤ c.TermStart ∧ c.TermStart ≤ 6) :=
  have main := one_row_per_in_range_client [⟨7, 5, 0⟩, ⟨7, 6, 0⟩, ⟨8, 9, 1⟩] 5 6 List.reverse
    iterOrder_reverse
  ⟨iterOrder_reverse, by decide, main.1, main.2 7⟩

/-- C3: for every order in which the aggregation map is iterated, the rows of
`calculateClaimSizeByClient` are in non-increasing order of total (the total of a row
is at least the total of the next row, and of every later row) and are a permutation of
the `(client, total)` entries of the map. -/
theorem rows_sorted_descending (claims : List Claim) (startEpoch endEpoch : Int)
    (iter : ClientSizes → ClientSizes) (hiter : IterOrder iter) :
    (sortedSizes claims startEpoch endEpoch iter).Chain' (fun a b => a.size ≥ b.size) ∧
    (sortedSizes claims startEpoch endEpoch iter).Pairwise (fun a b => a.size ≥ b.size) ∧
    (sortedSizes claims startEpoch endEpoch iter).Perm
      ((aggregate claims startEpoch endEpoch).map toRow) := by
  have hs := sortedSizes_descending claims startEpoch endEpoch iter
  exact ⟨List.Pairwise.chain' hs, hs, sortedSizes_perm claims startEpoch endEpoch iter hiter⟩

theorem rows_sorted_descending_witness :
    IterOrder id ∧
    sortedSizes [⟨1, 0, 3⟩, ⟨2, 0, 9⟩, ⟨3, 0, 9⟩, ⟨1, 0, 1⟩] 0 0 id =
      [⟨2, 9⟩, ⟨3, 9⟩, ⟨1, 4⟩] ∧
    (sortedSizes [⟨1, 0, 3⟩, ⟨2, 0, 9⟩, ⟨3, 0, 9⟩, ⟨1, 0, 1⟩] 0 0 id).Chain'
      (fun a b => a.size ≥ b.size) ∧
    (sortedSizes [⟨1, 0, 3⟩, ⟨2, 0, 9⟩, ⟨3, 0, 9⟩, ⟨1, 0, 1⟩] 0 0 id).Pairwise
      (fun a b => a.size ≥ b.size) ∧
    (sortedSizes [⟨1, 0, 3⟩, ⟨2, 0, 9⟩, ⟨3, 0, 9⟩, ⟨1, 0, 1⟩] 0 0 id).Perm
      ((aggregate [⟨1, 0, 3⟩, ⟨2, 0, 9⟩, ⟨3, 0, 9⟩, ⟨1, 0, 1⟩] 0 0).map toRow) :=
  ⟨iterOrder_id, by decide,
    rows_sorted_descending [⟨1, 0, 3⟩, ⟨2, 0, 9⟩, ⟨3, 0, 9⟩, ⟨1, 0, 1⟩] 0 0 id iterOrder_id⟩

/-- C4, as stated, fails: for two claims of client 1 of size `2^63` each, both in
range, the only row is `(1, 0)`, so the printed totals sum to `0` while the in-range
sizes sum to `2^64`. -/
theorem sum_of_totals_overflow :
    IterOrder id ∧
    sortedSizes overflowClaims 0 0 id = [⟨1, 0⟩] ∧
    inRangeSum overflowClaims 0 0 = 2 ^ 64 ∧
    ((sortedSizes overflowClaims 0 0 id).map clientSize.size).sum ≠
      inRangeSum overflowClaims 0 0 := by
  refine ⟨iterOrder_id, ?_, ?_, ?_⟩ <;> decide

/-- C4, amended: when the in-range sizes of every client sum to less than `2^64`, the
sum of the totals of all rows equals the sum of `Size` over all claims with
`startEpoch ≤ TermStart ≤ endEpoch`. -/
theorem sum_of_totals (claims : List Claim) (startEpoch endEpoch : Int)
    (iter : ClientSizes → ClientSizes) (hiter : IterOrder iter)
    (hsum : NoOverflow claims startEpoch endEpoch) :
    ((sortedSizes claims startEpoch endEpoch iter).map clientSize.size).sum =
      inRangeSum claims startEpoch endEpoch := by
  rw [(sizes_sortedSizes claims startEpoch endEpoch iter hiter).sum_eq]
  exact sum_values_aggregate claims startEpoch endEpoch hsum

theorem sum_of_totals_witness :
    IterOrder List.reverse ∧ NoOverflow exampleClaims 100 150 ∧
    inRangeSum exampleClaims 100 150 = 17 ∧
    ((sortedSizes exampleClaims 100 150 List.reverse).map clientSize.size).sum =
      inRangeSum exampleClaims 100 150 :=
  have hsum : NoOverflow exampleClaims 100 150 := fun client =>
    lt_of_le_of_lt (clientInRangeSum_le exampleClaims 100 150 client) (by decide)
  ⟨iterOrder_reverse, hsum, by decide,
    sum_of_totals exampleClaims 100 150 List.reverse iterOrder_reverse hsum⟩

/-- C5, as stated, fails: for two claims of client 1 of size `2^63` each, both in
range, the exact sum is `2^64` and the printed total is `0`. -/
theorem accumulation_wraps :
    IterOrder id ∧
    sortedSizes overflowClaims 0 0 id = [⟨1, 0⟩] ∧
    clientInRangeSum overflowClaims 0 0 1 = 2 ^ 64 ∧
    ¬ (∀ row ∈ sortedSizes overflowClaims 0 0 id,
      row.size = clientInRangeSum overflowClaims 0 0 row.client) := by
  refine ⟨iterOrder_id, by decide, by decide, ?_⟩
  intro h
  exact absurd (h ⟨1, 0⟩ (by decide)) (by decide)

/-- C5, amended: the accumulation is `uint64` addition: each client's printed total is
the sum of that client's in-range sizes reduced modulo `2^64`. -/
theorem totals_wrap_modulo (claims : List Claim) (startEpoch endEpoch : Int)
    (iter : ClientSizes → ClientSizes) (hiter : IterOrder iter) (row : clientSize)
    (hrow : row ∈ sortedSizes claims startEpoch endEpoch iter) :
    row.size = clientInRangeSum claims startEpoch endEpoch row.client % 2 ^ 64 :=
  size_of_mem_sortedSizes claims startEpoch endEpoch iter hiter row hrow

theorem totals_wrap_modulo_witness :
    IterOrder id ∧
    (⟨1, 128⟩ : clientSize) ∈
      sortedSizes [⟨1, 0, 2 ^ 63⟩, ⟨1, 0, 2 ^ 63⟩, ⟨1, 0, 128⟩] 0 0 id ∧
    clientInRangeSum [⟨1, 0, 2 ^ 63⟩, ⟨1, 0, 2 ^ 63⟩, ⟨1, 0, 128⟩] 0 0 1 = 2 ^ 64 + 128 ∧
    (128 : Nat) =
      clientInRangeSum [⟨1, 0, 2 ^ 63⟩, ⟨1, 0, 2 ^ 63⟩, ⟨1, 0, 128⟩] 0 0 1 % 2 ^ 64 :=
  ⟨iterOrder_id, by decide, by decide,
    totals_wrap_modulo [⟨1, 0, 2 ^ 63⟩, ⟨1, 0, 2 ^ 63⟩, ⟨1, 0, 128⟩] 0 0 id iterOrder_id
      ⟨1, 128⟩ (by decide)⟩

/-- C6, as stated, fails: for two clients with the same total the two iteration orders
of the aggregation map give two different reports. -/
theorem tie_order_leaks :
    IterOrder id ∧ IterOrder List.reverse ∧
    sortedSizes tiedClaims 100 100 id = [⟨1, 5⟩, ⟨2, 5⟩] ∧
    sortedSizes tiedClaims 100 100 List.reverse = [⟨2, 5⟩, ⟨1, 5⟩] ∧
    calculateClaimSizeByClient (.ok tiedClaims) id "f01000" 100 100 ≠
      calculateClaimSizeByClient (.ok tiedClaims) List.reverse "f01000" 100 100 := by
  refine ⟨iterOrder_id, iterOrder_reverse, ?_, ?_, ?_⟩ <;> decide

/-- C6, amended: for the same claims and range, two runs print the same header, the
same rows up to order and the same sequence of totals, whatever order the aggregation
map is iterated in and whatever order the claims are visited in; when the totals are
pairwise distinct the two runs print the identical text.  (Rows of clients with equal
totals may come in either order.) -/
theorem reproducible_up_to_ties (claims claims' : List Claim) (startEpoch endEpoch : Int)
    (iter₁ iter₂ : ClientSizes → ClientSizes) (providerAddr : String)
    (h₁ : IterOrder iter₁) (h₂ : IterOrder iter₂) (hclaims : claims'.Perm claims) :
    (calculateClaimSizeByClient (.ok claims) iter₁ providerAddr startEpoch endEpoch).stdout =
      headerLine providerAddr startEpoch endEpoch ++
        String.join ((sortedSizes claims startEpoch endEpoch iter₁).map rowLine) ∧
    (calculateClaimSizeByClient (.ok claims') iter₂ providerAddr startEpoch endEpoch).stdout =
      headerLine providerAddr startEpoch endEpoch ++
        String.join ((sortedSizes claims' startEpoch endEpoch iter₂).map rowLine) ∧
    (sortedSizes claims startEpoch endEpoch iter₁).Perm
      (sortedSizes claims' startEpoch endEpoch iter₂) ∧
    (sortedSizes claims startEpoch endEpoch iter₁).map clientSize.size =
      (sortedSizes claims' startEpoch endEpoch iter₂).map clientSize.size ∧
    (((aggregate claims startEpoch endEpoch).map Prod.snd).Nodup →
      calculateClaimSizeByClient (.ok claims) iter₁ providerAddr startEpoch endEpoch =
        calculateClaimSizeByClient (.ok claims') iter₂ providerAddr startEpoch endEpoch) := by
  have hp : (sortedSizes claims' startEpoch endEpoch iter₂).Perm
      ((aggregate claims startEpoch endEpoch).map toRow) :=
    (sortedSizes_perm claims' startEpoch endEpoch iter₂ h₂).trans
      ((aggregate_perm claims claims' hclaims startEpoch endEpoch).map toRow)
  have hp₁ := sortedSizes_perm claims startEpoch endEpoch iter₁ h₁
  refine ⟨stdout_ok _ _ _ _ _, stdout_ok _ _ _ _ _, hp₁.trans hp.symm,
    descending_sizes_unique _ _ (hp₁.trans hp.symm) (sortedSizes_descending _ _ _ _)
      (sortedSizes_descending _ _ _ _), fun hdistinct => ?_⟩
  have heq : sortedSizes claims' startEpoch endEpoch iter₂ =
      sortedSizes claims startEpoch endEpoch iter₁ :=
    sortedSizes_unique claims startEpoch endEpoch iter₁ h₁ hdistinct _ hp
      (sortedSizes_descending claims' startEpoch endEpoch iter₂)
  unfold calculateClaimSizeByClient
  simp only [heq]

theorem reproducible_up_to_ties_witness :
    IterOrder id ∧ IterOrder List.reverse ∧
    ([⟨2, 100, 5⟩, ⟨1, 100, 5⟩] : List Claim).Perm tiedClaims ∧
    ([⟨2, 150, 7⟩, ⟨1, 100, 10⟩, ⟨1, 200, 5⟩] : List Claim).Perm exampleClaims ∧
    ((aggregate exampleClaims 100 150).map Prod.snd).Nodup ∧
    (sortedSizes tiedClaims 100 100 id).Perm
      (sortedSizes [⟨2, 100, 5⟩, ⟨1, 100, 5⟩] 100 100 List.reverse) ∧
    (sortedSizes tiedClaims 100 100 id).map clientSize.size =
      (sortedSizes [⟨2, 100, 5⟩, ⟨1, 100, 5⟩] 100 100 List.reverse).map clientSize.size ∧
    calculateClaimSizeByClient (.ok exampleClaims) id "f01000" 100 150 =
      calculateClaimSizeByClient (.ok [⟨2, 150, 7⟩, ⟨1, 100, 10⟩, ⟨1, 200, 5⟩]) List.reverse
        "f01000" 100 150 :=
  have hp₁ : ([⟨2, 100, 5⟩, ⟨1, 100, 5⟩] : List Claim).Perm tiedClaims := by decide
  have hp₂ : ([⟨2, 150, 7⟩, ⟨1, 100, 10⟩, ⟨1, 200, 5⟩] : List Claim).Perm exampleClaims := by
    decide
  have tied := reproducible_up_to_ties tiedClaims [⟨2, 100, 5⟩, ⟨1, 100, 5⟩] 100 100 id
    List.reverse "f01000" iterOrder_id iterOrder_reverse hp₁
  have distinct := reproducible_up_to_ties exampleClaims
    [⟨2, 150, 7⟩, ⟨1, 100, 10⟩, ⟨1, 200, 5⟩] 100 150 id List.reverse "f01000"
    iterOrder_id iterOrder_reverse hp₂
  ⟨iterOrder_id, iterOrder_reverse, hp₁, hp₂, by decide, tied.2.2.1, tied.2.2.2.1,
    distinct.2.2.2.2 (by decide)⟩

/-- C7: when the in-range totals are pairwise distinct, the rows of
`calculateClaimSizeByClient` are in strictly decreasing order of total, they are the only
list of the map's `(client, total)` entries in non-increasing order of total, and they
are the same for every iteration order of the map and every order of the claims; for
the example claims and the range `[100, 150]` they are `[(1, 10), (2, 7)]`. -/
theorem rows_determined_when_totals_distinct (claims claims' : List Claim)
    (startEpoch endEpoch : Int) (iter iter' : ClientSizes → ClientSizes)
    (hiter : IterOrder iter) (hiter' : IterOrder iter') (hclaims : claims'.Perm claims)
    (hdistinct : ((aggregate claims startEpoch endEpoch).map Prod.snd).Nodup) :
    (sortedSizes claims startEpoch endEpoch iter).Pairwise (fun a b => a.size > b.size) ∧
    (∀ rows : List clientSize, rows.Perm ((aggregate claims startEpoch endEpoch).map toRow) →
      rows.Pairwise (fun a b => a.size ≥ b.size) →
      rows = sortedSizes claims startEpoch endEpoch iter) ∧
    sortedSizes claims' startEpoch endEpoch iter' = sortedSizes claims startEpoch endEpoch iter ∧
    sortedSizes exampleClaims 100 150 iter = [⟨1, 10⟩, ⟨2, 7⟩] := by
  have hs := sortedSizes_descending claims startEpoch endEpoch iter
  have hnd : ((sortedSizes claims startEpoch endEpoch iter).map clientSize.size).Nodup :=
    (sizes_sortedSizes claims startEpoch endEpoch iter hiter).nodup_iff.2 hdistinct
  refine ⟨?_, ?_, ?_, ?_⟩
  · exact (hs.and (List.pairwise_map.1 hnd)).imp (fun hab => by omega)
  · intro rows hp hsorted
    exact sortedSizes_unique claims startEpoch endEpoch iter hiter hdistinct rows hp hsorted
  · apply sortedSizes_unique claims startEpoch endEpoch iter hiter hdistinct
    · exact (sortedSizes_perm claims' startEpoch endEpoch iter' hiter').trans
        ((aggregate_perm claims claims' hclaims startEpoch endEpoch).map toRow)
    · exact sortedSizes_descending claims' startEpoch endEpoch iter'
  · symm
    apply sortedSizes_unique exampleClaims 100 150 iter hiter
    · decide
    · exact List.Perm.of_eq (by decide)
    · decide

theorem rows_determined_when_totals_distinct_witness :
    IterOrder id ∧ IterOrder List.reverse ∧
    ([⟨2, 150, 7⟩, ⟨1, 200, 5⟩, ⟨1, 100, 10⟩] : List Claim).Perm exampleClaims ∧
    ((aggregate exampleClaims 100 150).map Prod.snd).Nodup ∧
    (sortedSizes exampleClaims 100 150 id).Pairwise (fun a b => a.size > b.size) ∧
    sortedSizes [⟨2, 150, 7⟩, ⟨1, 200, 5⟩, ⟨1, 100, 10⟩] 100 150 List.reverse =
      sortedSizes exampleClaims 100 150 id ∧
    sortedSizes exampleClaims 100 150 id = [⟨1, 10⟩, ⟨2, 7⟩] :=
  have hperm : ([⟨2, 150, 7⟩, ⟨1, 200, 5⟩, ⟨1, 100, 10⟩] : List Claim).Perm exampleClaims := by
    decide
  have main := rows_determined_when_totals_distinct exampleClaims
    [⟨2, 150, 7⟩, ⟨1, 200, 5⟩, ⟨1, 100, 10⟩] 100 150 id List.reverse iterOrder_id
    iterOrder_reverse hperm (by decide)
  ⟨iterOrder_id, iterOrder_reverse, hperm, by decide, main.1, main.2.2.1, main.2.2.2⟩

/-- C8: when `startEpoch > endEpoch`, or when the claim list is empty, a successful
fetch makes `calculateClaimSizeByClient` print the header line and no row, and return no
error. -/
theorem empty_report (claims : List Claim) (startEpoch endEpoch : Int)
    (iter : ClientSizes → ClientSizes) (providerAddr : String) (hiter : IterOrder iter)
    (h : startEpoch > endEpoch ∨ claims = []) :
    sortedSizes claims startEpoch endEpoch iter = [] ∧
    calculateClaimSizeByClient (.ok claims) iter providerAddr startEpoch endEpoch =
      { stdout := headerLine providerAddr startEpoch endEpoch, err := none } := by
  have hrows : sortedSizes claims startEpoch endEpoch iter = [] := by
    have hp := sortedSizes_perm claims startEpoch endEpoch iter hiter
    rw [aggregate_eq_nil claims startEpoch endEpoch h] at hp
    exact List.Perm.eq_nil hp
  refine ⟨hrows, ?_⟩
  unfold calculateClaimSizeByClient
  simp only [hrows, List.map_nil]
  congr 1

theorem empty_report_witness :
    IterOrder List.reverse ∧ (150 : Int) > 100 ∧
    (sortedSizes exampleClaims 150 100 List.reverse = [] ∧
      calculateClaimSizeByClient (.ok exampleClaims) List.reverse "f01000" 150 100 =
        { stdout := "Provider f01000 在Epoch 150 到 100 之间的Claim Size统计 (按Client分组):\n",
          err := none }) ∧
    (sortedSizes [] 100 150 List.reverse = [] ∧
      calculateClaimSizeByClient (.ok []) List.reverse "f01000" 100 150 =
        { stdout := "Provider f01000 在Epoch 100 到 150 之间的Claim Size统计 (按Client分组):\n",
          err := none }) :=
  ⟨iterOrder_reverse, by decide,
    empty_report exampleClaims 150 100 List.reverse "f01000" iterOrder_reverse
      (Or.inl (by decide)),
    empty_report [] 100 150 List.reverse "f01000" iterOrder_reverse (Or.inr rfl)⟩

/-- C9: `calculateClaimSizeByClient` returns an error exactly when the fetch fails; on a
failed fetch it prints nothing and the returned error wraps the fetch error (its message
is the fetch error's message after the prefix of line 71), and on a successful fetch it
returns `nil` for every claim list and range. -/
theorem error_iff_fetch_fails (fetched : Except GoError (List Claim)) (fetchErr : GoError)
    (claims : List Claim) (iter : ClientSizes → ClientSizes) (providerAddr : String)
    (startEpoch endEpoch : Int) :
    ((∃ err, (calculateClaimSizeByClient fetched iter providerAddr startEpoch endEpoch).err =
        some err) ↔ ∃ cause, fetched = .error cause) ∧
    (calculateClaimSizeByClient (.error fetchErr) iter providerAddr startEpoch endEpoch).stdout
      = "" ∧
    (∃ err,
      (calculateClaimSizeByClient (.error fetchErr) iter providerAddr startEpoch endEpoch).err =
        some err ∧
      err.Unwrap = some fetchErr ∧
      err.Error = "调用StateGetClaims失败: " ++ fetchErr.Error) ∧
    (calculateClaimSizeByClient (.ok claims) iter providerAddr startEpoch endEpoch).err = none := by
  refine ⟨?_, rfl, ⟨_, rfl, rfl, rfl⟩, rfl⟩
  cases fetched with
  | error cause =>
    constructor
    · intro _
      exact ⟨cause, rfl⟩
    · intro _
      exact ⟨_, rfl⟩
  | ok cs =>
    constructor
    · rintro ⟨err, herr⟩
      exact absurd herr (by simp [calculateClaimSizeByClient])
    · rintro ⟨cause, hcause⟩
      exact absurd hcause (by simp)

/-- C10, as stated, fails: the header line is not the English sentence of the
specification; for the example claims the text written is the one given here. -/
theorem header_is_not_english :
    (calculateClaimSizeByClient (.ok exampleClaims) id "f01000" 100 150).stdout =
      "Provider f01000 在Epoch 100 到 150 之间的Claim Size统计 (按Client分组):\nClient 1: 10\nClient 2: 7\n" ∧
    (calculateClaimSizeByClient (.ok exampleClaims) id "f01000" 100 150).stdout ≠
      "Provider f01000 claim size statistics between epoch 100 and 150 (grouped by client):\nClient 1: 10\nClient 2: 7\n" := by
  constructor <;> decide

/-- C10, amended: on a successful fetch the text written is the header line
"Provider <addr> 在Epoch <start> 到 <end> 之间的Claim Size统计 (按Client分组):" with the
address and the two epochs in decimal, followed by one line "Client <id>: <total>" per
row in the sorted row order; there are as many rows as distinct clients with an in-range
claim, so for an address without line feed the text has one line more than that. -/
theorem report_text (claims : List Claim) (startEpoch endEpoch : Int)
    (iter : ClientSizes → ClientSizes) (providerAddr : String) (hiter : IterOrder iter)
    (haddr : newlines providerAddr = 0) :
    (calculateClaimSizeByClient (.ok claims) iter providerAddr startEpoch endEpoch).stdout =
      "Provider " ++ providerAddr ++ " 在Epoch " ++ toString startEpoch ++ " 到 " ++
        toString endEpoch ++ " 之间的Claim Size统计 (按Client分组):\n" ++
        String.join ((sortedSizes claims startEpoch endEpoch iter).map
          (fun row => "Client " ++ toString row.client ++ ": " ++ toString row.size ++ "\n")) ∧
    (sortedSizes claims startEpoch endEpoch iter).length =
      (inRangeClients claims startEpoch endEpoch).length ∧
    newlines (calculateClaimSizeByClient (.ok claims) iter providerAddr startEpoch endEpoch).stdout
      = 1 + (inRangeClients claims startEpoch endEpoch).length := by
  refine ⟨stdout_ok claims iter providerAddr startEpoch endEpoch,
    length_sortedSizes claims startEpoch endEpoch iter hiter, ?_⟩
  rw [stdout_ok, newlines_append, newlines_headerLine providerAddr startEpoch endEpoch haddr,
    newlines_join_rows, length_sortedSizes claims startEpoch endEpoch iter hiter]

theorem report_text_witness :
    IterOrder List.reverse ∧ newlines "f01000" = 0 ∧
    (calculateClaimSizeByClient (.ok exampleClaims) List.reverse "f01000" (-5) 150).stdout =
      "Provider f01000 在Epoch -5 到 150 之间的Claim Size统计 (按Client分组):\nClient 1: 10\nClient 2: 7\n" ∧
    inRangeClients exampleClaims (-5) 150 = [1, 2] ∧
    (sortedSizes exampleClaims (-5) 150 List.reverse).length =
      (inRangeClients exampleClaims (-5) 150).length ∧
    newlines (calculateClaimSizeByClient (.ok exampleClaims) List.reverse "f01000" (-5) 150).stdout
      = 1 + (inRangeClients exampleClaims (-5) 150).length :=
  have main := report_text exampleClaims (-5) 150 List.reverse "f01000" iterOrder_reverse
    (by decide)
  ⟨iterOrder_reverse, by decide, by decide, by decide, main.2.1, main.2.2⟩

end LotusClaim
